import Mathlib

/-
Verification of the tag-resolution and enchantment-aggregation pipeline of
src/scripts/extract_enchantments.py.

Python strings are modelled as lists of characters (MC.Str).  The JAR archive
is modelled as the record MC.Jar of typed read-only lookups: one map from a
full entry path to the parsed tag document (the list held under its values
key), one map from a full entry path to a parsed enchantment definition, and
the parsed language table.  A lookup result of none models the behaviour of
extract_json_from_jar returning a falsy value (entry absent, JSON parse
failure, or a document that parses to the empty object), which every caller
in the source treats identically.

The recursive tag resolvers of the source have no termination guarantee on
cyclic tag data, so they are embedded with an explicit fuel parameter that
bounds the depth of nested tag-reference resolution.  A result of none means
the Python recursion is still descending after that many nested resolve
calls; for every terminating run of the source there is a fuel making the
embedding return some with the same list.
-/

namespace MC

/-- Python strings, modelled as lists of characters. -/
abbrev Str := List Char

/-- One entry of the values array of a tag document
(data model of extract_enchantments.py, lines 55 and 92): either a JSON
string, or a JSON object whose optional id field is modelled (the source
reads only the id key of such objects; other JSON value kinds never reach
the loops because the source branches only on str and dict). -/
inductive JVal where
  | str (s : Str)
  | obj (idField : Option Str)
deriving DecidableEq

/-- A description value as consumed by resolve_translation (line 183):
a JSON string, a JSON object with an optional translate key, or any other
JSON value, carried by the string Python's str() would render it to. -/
inductive TransDesc where
  | str (s : Str)
  | obj (translate : Option Str)
  | other (s : Str)
deriving DecidableEq

/-- A min_cost / max_cost object of an enchantment definition (line 231):
optional base field (and the per_level_above_first field read by parse_cost). -/
structure CostDef where
  base : Option Int
  per_level_above_first : Option Int
deriving DecidableEq

/-- A parsed enchantment definition document
(the fields extract_enchantment_data reads at lines 223-236); every field is
optional because the source reads each with dict.get and a default. -/
structure EnchDef where
  description : Option TransDesc
  max_level : Option Int
  min_cost : Option CostDef
  max_cost : Option CostDef
  weight : Option Int
  supported_items : Option Str
deriving DecidableEq

/-- The JAR archive as the read-only typed lookup used by the source:
tags maps a full entry path to the values list of a tag document,
enchDefs maps a full entry path to a parsed enchantment definition, and
lang is the parsed language table of load_language_file.  none models a
falsy result of extract_json_from_jar (absent, malformed, or empty). -/
structure Jar where
  tags : Str → Option (List JVal)
  enchDefs : Str → Option EnchDef
  lang : Str → Option Str

/-- tag.startswith of the source (lines 38, 57, 65, 75, 94, 112). -/
def startsWithHash : Str → Bool
  | '#' :: _ => true
  | _ => false

/-- tag.split at the first colon: some (before, after) when a colon occurs,
none otherwise (models the membership test and split at lines 43-46). -/
def splitColon : Str → Option (Str × Str)
  | [] => none
  | c :: cs =>
    if c = ':' then some ([], cs)
    else
      match splitColon cs with
      | none => none
      | some (a, b) => some (c :: a, b)

/-- namespace, path = tag.split(colon, 1) if a colon occurs, else
minecraft, tag (lines 43-46, identical at lines 80-83). -/
def splitNs (tag : Str) : Str × Str :=
  match splitColon tag with
  | some (ns, p) => (ns, p)
  | none => ("minecraft".toList, tag)

/-- The item-domain tag path data/ns/tags/item/path.json (line 48). -/
def itemTagPath (ns p : Str) : Str :=
  "data/".toList ++ ns ++ "/tags/item/".toList ++ p ++ ".json".toList

/-- The enchantment-domain tag path data/ns/tags/enchantment/path.json (line 85). -/
def enchTagPath (ns p : Str) : Str :=
  "data/".toList ++ ns ++ "/tags/enchantment/".toList ++ p ++ ".json".toList

/-- The loop body of resolve_item_tag (lines 55-68) applied to one values
entry: a string is recursively resolved when it starts with the hash marker
and is otherwise a singleton; an object contributes its id field (default
the empty string) under the same rule.  recur is the recursive resolve call. -/
def handle_item_value (recur : Str → Option (List Str)) : JVal → Option (List Str)
  | JVal.str s => if startsWithHash s then recur s else some [s]
  | JVal.obj i =>
    if startsWithHash (i.getD []) then recur (i.getD []) else some [i.getD []]

/-- The loop body of resolve_enchantment_tag (lines 92-98) applied to one
values entry: only strings are inspected; an object entry is skipped, i.e.
contributes the empty list to the concatenation. -/
def handle_enchantment_value (recur : Str → Option (List Str)) : JVal → Option (List Str)
  | JVal.str s => if startsWithHash s then recur s else some [s]
  | JVal.obj _ => some []

/-- The accumulation loops of resolve_item_tag / resolve_enchantment_tag
(items = [] then extend or append per entry): one per-entry result list per
values entry, concatenated in document order.  none propagates a
non-terminating nested resolution. -/
def collect_values (handle : JVal → Option (List Str)) : List JVal → Option (List Str)
  | [] => some []
  | v :: rest =>
    match handle v with
    | none => none
    | some head =>
      match collect_values handle rest with
      | none => none
      | some tail => some (head ++ tail)

/-- resolve_item_tag (lines 36-70).  A non-reference argument is returned as
a singleton; a reference is stripped of its hash marker, split into
namespace and path, and the tag document at the item-domain path is loaded;
a falsy document yields the reconstructed reference itself as singleton
sentinel; otherwise the values entries are resolved in order.  fuel bounds
the depth of nested tag references. -/
def resolve_item_tag (jar : Jar) : Nat → Str → Option (List Str)
  | fuel, tag =>
    if startsWithHash tag then
      match fuel with
      | 0 => none
      | fuel' + 1 =>
        match jar.tags (itemTagPath (splitNs (tag.drop 1)).1 (splitNs (tag.drop 1)).2) with
        | none => some ['#' :: tag.drop 1]
        | some vals =>
          collect_values (handle_item_value (fun t => resolve_item_tag jar fuel' t)) vals
    else some [tag]

/-- resolve_enchantment_tag (lines 73-100): as resolve_item_tag but for the
enchantment-domain root path, and with object entries skipped by the loop. -/
def resolve_enchantment_tag (jar : Jar) : Nat → Str → Option (List Str)
  | fuel, tag =>
    if startsWithHash tag then
      match fuel with
      | 0 => none
      | fuel' + 1 =>
        match jar.tags (enchTagPath (splitNs (tag.drop 1)).1 (splitNs (tag.drop 1)).2) with
        | none => some ['#' :: tag.drop 1]
        | some vals =>
          collect_values (handle_enchantment_value (fun t => resolve_enchantment_tag jar fuel' t)) vals
    else some [tag]

/-- The membership target minecraft:enchantment_id (line 109). -/
def target_id (e : Str) : Str := "minecraft:".toList ++ e

/-- The loop of check_enchantment_in_tag (lines 110-118) over the values
entries: a hash-prefixed string is resolved in the enchantment domain and
the loop returns true as soon as the target occurs in the resolved list; a
plain string returns true when it equals the target; object entries are
skipped; reaching the end yields false. -/
def check_values (recur : Str → Option (List Str)) (target : Str) : List JVal → Option Bool
  | [] => some false
  | JVal.str s :: rest =>
    if startsWithHash s then
      match recur s with
      | none => none
      | some resolved =>
        if target ∈ resolved then some true else check_values recur target rest
    else if s = target then some true else check_values recur target rest
  | JVal.obj _ :: rest => check_values recur target rest

/-- check_enchantment_in_tag (lines 103-120): false when the tag document at
tag_path is falsy, otherwise the membership loop over its values. -/
def check_enchantment_in_tag (jar : Jar) (fuel : Nat) (e : Str) (tag_path : Str) : Option Bool :=
  match jar.tags tag_path with
  | none => some false
  | some vals =>
    check_values (fun t => resolve_enchantment_tag jar fuel t) (target_id e) vals

/-- Bookkeeping dict of get_librarian_trades (lines 125-128). -/
structure TradeInfo where
  available_from_librarian : Bool
  biome_trades : List (Str × Str)
deriving DecidableEq

/-- The fixed biome list of get_librarian_trades (line 131). -/
def biomes : List Str :=
  ["desert", "jungle", "plains", "savanna", "snow", "swamp", "taiga"].map String.toList

/-- The biome-major, rarity-minor iteration order of the nested loops at
lines 133-134: for each biome, rarity common then special. -/
def biome_rarity_pairs : List (Str × Str) :=
  biomes.flatMap (fun b => [(b, "common".toList), (b, "special".toList)])

/-- The trade-rebalance tag path of line 135. -/
def tradeTagPath (biome rarity : Str) : Str :=
  "data/minecraft/datapacks/trade_rebalance/data/minecraft/tags/enchantment/trades/".toList
    ++ biome ++ "_".toList ++ rarity ++ ".json".toList

/-- The catch-all tradeable tag path of line 144. -/
def tradeablePath : Str := "data/minecraft/tags/enchantment/tradeable.json".toList

/-- The (any, general) pair appended for the catch-all tag (lines 148-151). -/
def any_general : Str × Str := ("any".toList, "general".toList)

/-- The nested biome/rarity loop of get_librarian_trades (lines 133-141),
walked as the single biome-major rarity-minor pair sequence: per matching
pair, available is set and the pair is appended to biome_trades. -/
def trade_loop (jar : Jar) (fuel : Nat) (e : Str) :
    List (Str × Str) → TradeInfo → Option TradeInfo
  | [], ti => some ti
  | (b, r) :: rest, ti =>
    match check_enchantment_in_tag jar fuel e (tradeTagPath b r) with
    | none => none
    | some c =>
      trade_loop jar fuel e rest
        (if c then TradeInfo.mk true (ti.biome_trades ++ [(b, r)]) else ti)

/-- get_librarian_trades (lines 123-153): run the biome/rarity loop from the
initial false/empty dict, then test the catch-all tradeable tag; on a
catch-all match with no biome match recorded, set available and append the
(any, general) pair. -/
def get_librarian_trades (jar : Jar) (fuel : Nat) (e : Str) : Option TradeInfo :=
  match trade_loop jar fuel e biome_rarity_pairs (TradeInfo.mk false []) with
  | none => none
  | some ti =>
    match check_enchantment_in_tag jar fuel e tradeablePath with
    | none => none
    | some c =>
      if c && !ti.available_from_librarian then
        some (TradeInfo.mk true (ti.biome_trades ++ [any_general]))
      else some ti

/-- resolve_translation (lines 183-194): a string passes through; a dict
reads its translate key (default the empty string) and returns the language
table entry when the key is truthy and present, else the key itself; any
other value is rendered by str(). -/
def resolve_translation (d : TransDesc) (lang : Str → Option Str) : Str :=
  match d with
  | TransDesc.str s => s
  | TransDesc.obj t =>
    if (t.getD []).isEmpty then t.getD []
    else
      match lang (t.getD []) with
      | some v => v
      | none => t.getD []
  | TransDesc.other s => s

/-- The enchantment definition path data/minecraft/enchantment/name.json
(line 213). -/
def enchantmentDefPath (ename : Str) : Str :=
  "data/minecraft/enchantment/".toList ++ ename ++ ".json".toList

/-- The output record built by extract_enchantment_data (lines 227-237). -/
structure ERecord where
  name : Str
  description : Str
  max_level : Int
  min_cost : Int
  max_cost : Int
  rarity_weight : Int
  applies_to : List Str
  librarian_biomes : List Str
  tradeable : Bool
deriving DecidableEq

/-- extract_enchantment_data (lines 211-239).  The outer none propagates a
non-terminating tag resolution (fuel exhaustion); some none models the empty
dict returned at line 217 when the definition document is falsy; otherwise
the full record is built: name, resolved description (default the empty
dict), max_level default 1, the base of min_cost and of max_cost default 0,
weight default 0, the resolved supported_items (empty when the field is
falsy), and the librarian trade projections. -/
def extract_enchantment_data (jar : Jar) (fuel : Nat) (ename : Str)
    (lang : Str → Option Str) : Option (Option ERecord) :=
  match jar.enchDefs (enchantmentDefPath ename) with
  | none => some none
  | some data =>
    match get_librarian_trades jar fuel ename with
    | none => none
    | some trade_info =>
      match
        (if (data.supported_items.getD []).isEmpty then some []
         else resolve_item_tag jar fuel (data.supported_items.getD [])) with
      | none => none
      | some items_list =>
        some (some (ERecord.mk
          ename
          (resolve_translation (data.description.getD (TransDesc.obj none)) lang)
          (data.max_level.getD 1)
          ((data.min_cost.getD (CostDef.mk none none)).base.getD 0)
          ((data.max_cost.getD (CostDef.mk none none)).base.getD 0)
          (data.weight.getD 0)
          items_list
          (if trade_info.available_from_librarian
           then trade_info.biome_trades.map Prod.fst else [])
          trade_info.available_from_librarian))

/-- The aggregation loop of main (lines 268-273): one entry appended to the
output list per enchantment name, in order, each the result of
extract_enchantment_data (so a falsy definition document contributes the
empty dict, modelled none). -/
def main_output (jar : Jar) (fuel : Nat) : List Str → Option (List (Option ERecord))
  | [] => some []
  | n :: rest =>
    match extract_enchantment_data jar fuel n jar.lang with
    | none => none
    | some r =>
      match main_output jar fuel rest with
      | none => none
      | some others => some (r :: others)

/-! Concrete stores used by the witnesses and counterexamples. -/

/-- A JAR with no entries at all. -/
def emptyJar : Jar := Jar.mk (fun _ => none) (fun _ => none) (fun _ => none)

/-! Helper lemmas. -/

/-- collect_values concatenates the per-entry results in document order:
when each entry v of vals resolves to its own list l (in position), the loop
yields the in-place concatenation of those lists. -/
theorem collect_of_forall2 (handle : JVal → Option (List Str)) :
    ∀ {vals : List JVal} {ls : List (List Str)},
      List.Forall₂ (fun v l => handle v = some l) vals ls →
      collect_values handle vals = some ls.flatten := by
  intro vals ls hf
  induction hf with
  | nil => simp [collect_values]
  | cons hv _ ih => simp [collect_values, hv, ih]

/-- C7: a string that does not start with the hash marker resolves to
exactly itself as a singleton, in both domains, for any archive and any
fuel (no document is loaded). -/
theorem c7_identity (jarI jarE : Jar) (fuelI fuelE : Nat) (x : Str)
    (h : startsWithHash x = false) :
    resolve_item_tag jarI fuelI x = some [x] ∧
    resolve_enchantment_tag jarE fuelE x = some [x] := by
  constructor
  · rw [resolve_item_tag.eq_def]; simp [h]
  · rw [resolve_enchantment_tag.eq_def]; simp [h]

/-- C7 witness: the concrete string minecraft:stick resolves to itself in
both domains. -/
theorem c7_identity_witness :
    resolve_item_tag emptyJar 0 ("minecraft:stick".toList) = some ["minecraft:stick".toList] ∧
    resolve_enchantment_tag emptyJar 5 ("minecraft:stick".toList) = some ["minecraft:stick".toList] :=
  c7_identity emptyJar emptyJar 0 5 ("minecraft:stick".toList) (by decide)

/-- C5: a tag reference whose tag document is not loadable (the lookup is
falsy) resolves, in either domain, to the singleton containing the
reference string itself, without failing. -/
theorem c5_unresolved_sentinel (jar : Jar) (fuel : Nat) (rest : Str)
    (hi : jar.tags (itemTagPath (splitNs rest).1 (splitNs rest).2) = none)
    (he : jar.tags (enchTagPath (splitNs rest).1 (splitNs rest).2) = none) :
    resolve_item_tag jar (fuel + 1) ('#' :: rest) = some ['#' :: rest] ∧
    resolve_enchantment_tag jar (fuel + 1) ('#' :: rest) = some ['#' :: rest] := by
  constructor
  · rw [resolve_item_tag.eq_def]; simp [startsWithHash, hi]
  · rw [resolve_enchantment_tag.eq_def]; simp [startsWithHash, he]

/-- C5 witness: in the empty archive, the reference #minecraft:foo resolves
to itself in both domains. -/
theorem c5_unresolved_sentinel_witness :
    resolve_item_tag emptyJar 1 ('#' :: "minecraft:foo".toList) =
      some ['#' :: "minecraft:foo".toList] ∧
    resolve_enchantment_tag emptyJar 1 ('#' :: "minecraft:foo".toList) =
      some ['#' :: "minecraft:foo".toList] :=
  c5_unresolved_sentinel emptyJar 0 ("minecraft:foo".toList) rfl rfl

/-- C6: for a loadable tag document, the resolved sequence follows the
document's declaration order with each entry's resolution spliced in place
(the flattening of the per-entry result lists), and duplicate identifiers
are preserved: a document listing the same literal twice resolves to that
literal twice. -/
theorem c6_in_place_order :
    (∀ (jar : Jar) (fuel : Nat) (rest : Str) (vals : List JVal) (ls : List (List Str)),
      jar.tags (itemTagPath (splitNs rest).1 (splitNs rest).2) = some vals →
      List.Forall₂
        (fun v l => handle_item_value (fun t => resolve_item_tag jar fuel t) v = some l)
        vals ls →
      resolve_item_tag jar (fuel + 1) ('#' :: rest) = some ls.flatten) ∧
    (∀ (jar : Jar) (fuel : Nat) (rest : Str) (x : Str),
      startsWithHash x = false →
      jar.tags (itemTagPath (splitNs rest).1 (splitNs rest).2) =
        some [JVal.str x, JVal.str x] →
      resolve_item_tag jar (fuel + 1) ('#' :: rest) = some [x, x]) := by
  have key : ∀ (jar : Jar) (fuel : Nat) (rest : Str) (vals : List JVal)
      (ls : List (List Str)),
      jar.tags (itemTagPath (splitNs rest).1 (splitNs rest).2) = some vals →
      List.Forall₂
        (fun v l => handle_item_value (fun t => resolve_item_tag jar fuel t) v = some l)
        vals ls →
      resolve_item_tag jar (fuel + 1) ('#' :: rest) = some ls.flatten := by
    intro jar fuel rest vals ls hdoc hf
    rw [resolve_item_tag.eq_def]
    simp only [startsWithHash, List.drop_succ_cons, List.drop_zero, hdoc]
    exact collect_of_forall2 _ hf
  refine ⟨key, ?_⟩
  intro jar fuel rest x hx hdoc
  have h1 : handle_item_value (fun t => resolve_item_tag jar fuel t) (JVal.str x) =
      some [x] := by
    simp [handle_item_value, hx]
  exact key jar fuel rest [JVal.str x, JVal.str x] [[x], [x]] hdoc
    (List.Forall₂.cons h1 (List.Forall₂.cons h1 List.Forall₂.nil))

/-- The archive of the nested-tag example in the specification: item tag a
holds the literal itemX followed by the reference #b, and item tag b holds
the literal itemY. -/
def jarAB : Jar := Jar.mk
  (fun p =>
    if p = itemTagPath ("minecraft".toList) ("a".toList) then
      some [JVal.str ("itemX".toList), JVal.str ("#b".toList)]
    else if p = itemTagPath ("minecraft".toList) ("b".toList) then
      some [JVal.str ("itemY".toList)]
    else none)
  (fun _ => none) (fun _ => none)

/-- C6 witness: with tag a = [itemX, #b] and tag b = [itemY], resolving #a
in the item domain yields [itemX, itemY], the nested tag expanded in place. -/
theorem c6_in_place_order_witness :
    resolve_item_tag jarAB 2 ('#' :: "a".toList) =
      some ["itemX".toList, "itemY".toList] := by
  have h := c6_in_place_order.1 jarAB 1 ("a".toList)
    [JVal.str ("itemX".toList), JVal.str ("#b".toList)]
    [["itemX".toList], ["itemY".toList]]
    (by decide)
    (List.Forall₂.cons (by decide) (List.Forall₂.cons (by decide) List.Forall₂.nil))
  rw [h]; decide

/-- C10: an object entry of an item tag document with no id field does not
make resolution fail: it contributes the empty string, in place, to the
resolved sequence. -/
theorem c10_missing_id (jar : Jar) (fuel : Nat) (rest : Str) (vals : List JVal)
    (ls : List Str)
    (hdoc : jar.tags (itemTagPath (splitNs rest).1 (splitNs rest).2) =
      some (JVal.obj none :: vals))
    (htail : collect_values (handle_item_value (fun t => resolve_item_tag jar fuel t))
      vals = some ls) :
    resolve_item_tag jar (fuel + 1) ('#' :: rest) = some ([] :: ls) := by
  rw [resolve_item_tag.eq_def]
  simp only [startsWithHash, List.drop_succ_cons, List.drop_zero, hdoc]
  simp [collect_values, handle_item_value, htail, startsWithHash]

/-- An archive whose every tag document is the single object entry without
an id field. -/
def jarObjNoId : Jar := Jar.mk (fun _ => some [JVal.obj none])
  (fun _ => none) (fun _ => none)

/-- C10 witness: a tag document consisting of one object entry without an id
field resolves to the singleton containing the empty string. -/
theorem c10_missing_id_witness :
    resolve_item_tag jarObjNoId 1 ('#' :: "a".toList) = some [[]] :=
  c10_missing_id jarObjNoId 0 ("a".toList) [] [] rfl rfl

/-- C3 as the specification states it (refinement statement written from the
spec's words, to be compared with the source resolvers): whenever the item
and the enchantment tag stores hold the same documents, resolving any
reference in the two domains computes the same sequence. -/
def resolveDomainsAgreeClaim : Prop :=
  ∀ jar : Jar,
    (∀ ns p, jar.tags (itemTagPath ns p) = jar.tags (enchTagPath ns p)) →
    ∀ fuel r, resolve_item_tag jar fuel r = resolve_enchantment_tag jar fuel r

/-- An archive where every tag path holds the same one-entry document whose
entry is an object carrying the id minecraft:x; in particular the item and
the enchantment stores coincide. -/
def jarObjId : Jar := Jar.mk
  (fun _ => some [JVal.obj (some ("minecraft:x".toList))])
  (fun _ => none) (fun _ => none)

/-- C3 counterexample: with identical item and enchantment documents whose
single entry is an object with an id field, the item domain resolves #a to
[minecraft:x] while the enchantment domain resolves it to [] — the two
domains do not handle structured entries identically, refuting the claim. -/
theorem c3_counterexample :
    ¬ resolveDomainsAgreeClaim ∧
    resolve_item_tag jarObjId 1 ('#' :: "a".toList) = some ["minecraft:x".toList] ∧
    resolve_enchantment_tag jarObjId 1 ('#' :: "a".toList) = some [] := by
  refine ⟨?_, by decide, by decide⟩
  intro h
  have := h jarObjId (fun ns p => rfl) 1 ('#' :: "a".toList)
  rw [show resolve_item_tag jarObjId 1 ('#' :: "a".toList) =
        some ["minecraft:x".toList] from by decide,
      show resolve_enchantment_tag jarObjId 1 ('#' :: "a".toList) =
        some [] from by decide] at this
  exact absurd this (by decide)

/-- The per-entry loop bodies agree on documents whose entries are all
literal strings, given that the recursive calls agree. -/
theorem agree_values (jar : Jar) (fuel : Nat)
    (hrec : ∀ t, resolve_item_tag jar fuel t = resolve_enchantment_tag jar fuel t) :
    ∀ vals : List JVal,
      (∀ v ∈ vals, ∃ s, v = JVal.str s) →
      collect_values (handle_item_value (fun t => resolve_item_tag jar fuel t)) vals =
      collect_values (handle_enchantment_value
        (fun t => resolve_enchantment_tag jar fuel t)) vals := by
  intro vals
  induction vals with
  | nil => intro _; rfl
  | cons v rest ih =>
    intro hstr
    obtain ⟨s, rfl⟩ := hstr v (by simp)
    have ihr := ih (fun w hw => hstr w (by simp [hw]))
    cases hs : startsWithHash s with
    | false => simp [collect_values, handle_item_value, handle_enchantment_value, hs, ihr]
    | true =>
      simp [collect_values, handle_item_value, handle_enchantment_value, hs, ihr, hrec s]

/-- C3 amended: the two resolvers compute the same sequence whenever the
item and the enchantment tag stores hold the same documents and every entry
of every document is a literal string (literal IDs and nested references are
handled identically); on structured entries they differ, as the
counterexample shows: the item domain extracts the id field while the
enchantment domain skips the entry. -/
theorem c3_amended (jar : Jar)
    (hsame : ∀ ns p, jar.tags (itemTagPath ns p) = jar.tags (enchTagPath ns p))
    (hstr : ∀ path vals, jar.tags path = some vals → ∀ v ∈ vals, ∃ s, v = JVal.str s) :
    ∀ fuel r, resolve_item_tag jar fuel r = resolve_enchantment_tag jar fuel r := by
  intro fuel
  induction fuel with
  | zero =>
    intro r
    rw [resolve_item_tag.eq_def, resolve_enchantment_tag.eq_def]
  | succ n ih =>
    intro r
    rw [resolve_item_tag.eq_def, resolve_enchantment_tag.eq_def]
    cases hh : startsWithHash r with
    | false => simp [hh]
    | true =>
      simp only [hh, if_true]
      rw [hsame (splitNs (r.drop 1)).1 (splitNs (r.drop 1)).2]
      cases hdoc : jar.tags (enchTagPath (splitNs (r.drop 1)).1 (splitNs (r.drop 1)).2) with
      | none => rfl
      | some vals => exact agree_values jar n ih vals (hstr _ vals hdoc)

/-- C3 amended witness: in the empty archive (equal stores, vacuously
string-only documents) the two domains agree on the reference #a. -/
theorem c3_amended_witness :
    resolve_item_tag emptyJar 1 ('#' :: "a".toList) =
    resolve_enchantment_tag emptyJar 1 ('#' :: "a".toList) :=
  c3_amended emptyJar (fun _ _ => rfl)
    (fun _ _ h => Option.noConfusion h) 1 ('#' :: "a".toList)

/-- A language table holding one entry whose key is the empty string. -/
def tableEmptyKey : Str → Option Str :=
  fun k => if k = [] then some ("value".toList) else none

/-- C8 counterexample: a descriptor carrying the empty string as translate
key, against a table in which that key is present, returns the raw key (the
empty string) and not the table's value — the truthiness test of the source
skips the lookup for an empty key, refuting the claim that any present key
is looked up. -/
theorem c8_counterexample :
    tableEmptyKey [] = some ("value".toList) ∧
    resolve_translation (TransDesc.obj (some [])) tableEmptyKey = [] ∧
    ([] : Str) ≠ "value".toList := by
  refine ⟨rfl, rfl, by decide⟩

/-- C8 amended: a literal string descriptor passes through unchanged; a
descriptor whose translate key is non-empty and present in the table returns
the table's value; a key absent from the table, or an empty key (even when
present in the table), returns the raw key itself; the function never
fails. -/
theorem c8_amended (lang : Str → Option Str) :
    (∀ s, resolve_translation (TransDesc.str s) lang = s) ∧
    (∀ k v, k ≠ [] → lang k = some v →
      resolve_translation (TransDesc.obj (some k)) lang = v) ∧
    (∀ k, lang k = none → resolve_translation (TransDesc.obj (some k)) lang = k) ∧
    (∀ k, k = [] → resolve_translation (TransDesc.obj (some k)) lang = k) ∧
    (resolve_translation (TransDesc.obj none) lang = []) := by
  refine ⟨fun s => rfl, ?_, ?_, ?_, rfl⟩
  · intro k v hk hv
    simp [resolve_translation, List.isEmpty_iff, hk, hv]
  · intro k hk
    cases he : k.isEmpty with
    | true => simp [resolve_translation, he]
    | false => simp [resolve_translation, he, hk]
  · intro k hk
    subst hk
    rfl

/-- A concrete one-entry language table. -/
def tableKV : Str → Option Str :=
  fun k => if k = "key".toList then some ("value".toList) else none

/-- C8 amended witness: the amended cases evaluated on a concrete table —
passthrough of a literal, lookup of a present non-empty key, fallback for an
absent key, and fallback for the empty key. -/
theorem c8_amended_witness :
    resolve_translation (TransDesc.str ("Sharpness".toList)) tableKV =
      "Sharpness".toList ∧
    resolve_translation (TransDesc.obj (some ("key".toList))) tableKV =
      "value".toList ∧
    resolve_translation (TransDesc.obj (some ("other".toList))) tableKV =
      "other".toList ∧
    resolve_translation (TransDesc.obj (some [])) tableKV = [] :=
  ⟨(c8_amended tableKV).1 ("Sharpness".toList),
   (c8_amended tableKV).2.1 ("key".toList) ("value".toList) (by decide) (by decide),
   (c8_amended tableKV).2.2.1 ("other".toList) (by decide),
   (c8_amended tableKV).2.2.2.1 [] rfl⟩

/-- The biome/rarity loop characterized: when the membership check of each
pair in the list returns the boolean f of that pair, the loop appends
exactly the matching pairs, in iteration order, and records availability as
soon as one matched. -/
theorem trade_loop_spec (jar : Jar) (fuel : Nat) (e : Str) (f : Str × Str → Bool) :
    ∀ (ps : List (Str × Str)) (ti : TradeInfo),
      (∀ p ∈ ps, check_enchantment_in_tag jar fuel e (tradeTagPath p.1 p.2) = some (f p)) →
      trade_loop jar fuel e ps ti =
        some (TradeInfo.mk (ti.available_from_librarian || !(ps.filter f).isEmpty)
          (ti.biome_trades ++ ps.filter f)) := by
  intro ps
  induction ps with
  | nil => intro ti h; simp [trade_loop]
  | cons p rest ih =>
    intro ti h
    obtain ⟨b, r⟩ := p
    have hc := h (b, r) (by simp)
    rw [trade_loop.eq_def]
    simp only [hc]
    cases hf : f (b, r) with
    | true =>
      rw [ih _ (fun q hq => h q (by simp [hq]))]
      simp [List.filter_cons, hf, List.append_assoc]
    | false =>
      rw [ih _ (fun q hq => h q (by simp [hq]))]
      simp [List.filter_cons, hf]

/-- C4: get_librarian_trades walks the fixed biome-major, rarity-minor pair
sequence, appending one (biome, rarity) pair per matching membership check
in that iteration order, and the catch-all tradeable check appends the
single (any, general) pair exactly when it matches and no biome pair was
recorded — so an enchantment matching both a biome tag and the catch-all
keeps only its biome pair(s). -/
theorem c4_trade_order (jar : Jar) (fuel : Nat) (e : Str) (f : Str × Str → Bool)
    (ct : Bool)
    (hc : ∀ p ∈ biome_rarity_pairs,
      check_enchantment_in_tag jar fuel e (tradeTagPath p.1 p.2) = some (f p))
    (hct : check_enchantment_in_tag jar fuel e tradeablePath = some ct) :
    get_librarian_trades jar fuel e =
      some (TradeInfo.mk (!(biome_rarity_pairs.filter f).isEmpty || ct)
        (biome_rarity_pairs.filter f ++
          (if ct && (biome_rarity_pairs.filter f).isEmpty then [any_general] else []))) := by
  rw [get_librarian_trades]
  rw [trade_loop_spec jar fuel e f biome_rarity_pairs (TradeInfo.mk false []) hc]
  simp only [hct]
  cases hfe : (biome_rarity_pairs.filter f).isEmpty with
  | true =>
    rw [List.isEmpty_iff.mp hfe]
    cases ct <;> simp
  | false =>
    cases ct <;> simp [hfe]

/-- C4 witness: in the empty archive every membership check returns false,
so the result has no biome pair and no catch-all pair. -/
theorem c4_trade_order_witness :
    get_librarian_trades emptyJar 1 ("sharpness".toList) = some (TradeInfo.mk false []) := by
  have h := c4_trade_order emptyJar 1 ("sharpness".toList) (fun _ => false) false
    (fun p _ => rfl) rfl
  rw [h]; decide

/-- The biome/rarity loop preserves the invariant that availability has been
set exactly when some pair has been recorded. -/
theorem trade_loop_inv (jar : Jar) (fuel : Nat) (e : Str) :
    ∀ (ps : List (Str × Str)) (ti ti' : TradeInfo),
      trade_loop jar fuel e ps ti = some ti' →
      (ti.available_from_librarian = true ↔ ti.biome_trades ≠ []) →
      (ti'.available_from_librarian = true ↔ ti'.biome_trades ≠ []) := by
  intro ps
  induction ps with
  | nil =>
    intro ti ti' h hinv
    rw [trade_loop] at h
    cases h
    exact hinv
  | cons p rest ih =>
    intro ti ti' h hinv
    obtain ⟨b, r⟩ := p
    simp only [trade_loop] at h
    cases hc : check_enchantment_in_tag jar fuel e (tradeTagPath b r) with
    | none => simp only [hc] at h; exact Option.noConfusion h
    | some c =>
      simp only [hc] at h
      cases c with
      | true => exact ih _ _ (by simpa using h) (by simp)
      | false => exact ih _ _ (by simpa using h) hinv

/-- get_librarian_trades always returns a dict in which availability holds
exactly when the biome_trades sequence is non-empty. -/
theorem get_librarian_trades_inv (jar : Jar) (fuel : Nat) (e : Str) (ti : TradeInfo)
    (h : get_librarian_trades jar fuel e = some ti) :
    ti.available_from_librarian = true ↔ ti.biome_trades ≠ [] := by
  rw [get_librarian_trades] at h
  cases hl : trade_loop jar fuel e biome_rarity_pairs (TradeInfo.mk false []) with
  | none => simp only [hl] at h; exact Option.noConfusion h
  | some t1 =>
    simp only [hl] at h
    have hinv := trade_loop_inv jar fuel e biome_rarity_pairs _ t1 hl (by simp)
    cases hct : check_enchantment_in_tag jar fuel e tradeablePath with
    | none => simp only [hct] at h; exact Option.noConfusion h
    | some c =>
      simp only [hct] at h
      cases hcc : (c && !t1.available_from_librarian) with
      | true =>
        simp only [hcc, if_true] at h
        cases h
        simp
      | false =>
        simp only [hcc, Bool.false_eq_true, if_false] at h
        cases h
        exact hinv

/-- C9: every record produced by the aggregator has a non-empty
librarian_biomes sequence exactly when its tradeable flag is true. -/
theorem c9_biomes_iff_tradeable (jar : Jar) (fuel : Nat) (ename : Str)
    (lang : Str → Option Str) (r : ERecord)
    (h : extract_enchantment_data jar fuel ename lang = some (some r)) :
    r.librarian_biomes ≠ [] ↔ r.tradeable = true := by
  rw [extract_enchantment_data] at h
  cases hdef : jar.enchDefs (enchantmentDefPath ename) with
  | none => simp only [hdef] at h; simp at h
  | some data =>
    simp only [hdef] at h
    cases hti : get_librarian_trades jar fuel ename with
    | none => simp only [hti] at h; exact Option.noConfusion h
    | some trade_info =>
      simp only [hti] at h
      cases hit :
          (if (data.supported_items.getD []).isEmpty then some []
           else resolve_item_tag jar fuel (data.supported_items.getD [])) with
      | none => simp only [hit] at h; exact Option.noConfusion h
      | some items_list =>
        simp only [hit, Option.some.injEq] at h
        subst h
        have hinv := get_librarian_trades_inv jar fuel ename trade_info hti
        cases hav : trade_info.available_from_librarian with
        | true =>
          have hbt : trade_info.biome_trades ≠ [] := hinv.mp hav
          simp [hav, List.map_eq_nil_iff, hbt]
        | false =>
          simp [hav]

/-- An archive holding one loadable enchantment definition (with no fields)
behind every definition path, and nothing else. -/
def jarDefOnly : Jar := Jar.mk (fun _ => none)
  (fun _ => some (EnchDef.mk none none none none none none)) (fun _ => none)

/-- C9 witness: the record extracted for the name a from an archive with a
loadable empty definition has empty librarian_biomes and tradeable false,
and the equivalence holds on it. -/
theorem c9_biomes_iff_tradeable_witness :
    ((ERecord.mk ("a".toList) [] 1 0 0 0 [] [] false).librarian_biomes ≠ [] ↔
      (ERecord.mk ("a".toList) [] 1 0 0 0 [] [] false).tradeable = true) :=
  c9_biomes_iff_tradeable jarDefOnly 0 ("a".toList) (fun _ => none)
    (ERecord.mk ("a".toList) [] 1 0 0 0 [] [] false) (by decide)

/-- A falsy enchantment definition document makes extract_enchantment_data
return the empty dict (modelled some none), not drop the record. -/
theorem extract_of_missing_def (jar : Jar) (fuel : Nat) (ename : Str)
    (lang : Str → Option Str)
    (h : jar.enchDefs (enchantmentDefPath ename) = none) :
    extract_enchantment_data jar fuel ename lang = some none := by
  rw [extract_enchantment_data, h]

/-- Every full record built by extract_enchantment_data carries the
processed name in its name field. -/
theorem extract_name (jar : Jar) (fuel : Nat) (ename : Str)
    (lang : Str → Option Str) (r : ERecord)
    (h : extract_enchantment_data jar fuel ename lang = some (some r)) :
    r.name = ename := by
  rw [extract_enchantment_data] at h
  cases hdef : jar.enchDefs (enchantmentDefPath ename) with
  | none => simp only [hdef] at h; simp at h
  | some data =>
    simp only [hdef] at h
    cases hti : get_librarian_trades jar fuel ename with
    | none => simp only [hti] at h; exact Option.noConfusion h
    | some trade_info =>
      simp only [hti] at h
      cases hit :
          (if (data.supported_items.getD []).isEmpty then some []
           else resolve_item_tag jar fuel (data.supported_items.getD [])) with
      | none => simp only [hit] at h; exact Option.noConfusion h
      | some items_list =>
        simp only [hit, Option.some.injEq] at h
        subst h
        rfl

/-- C2 counterexample: over the empty archive, the pipeline output for the
single name a (whose definition document cannot be loaded) is the one-entry
list holding the empty record — an entry is contributed for the unloadable
name and it carries no name field, refuting the claim that such a name
contributes no record and that every appearing record carries a name. -/
theorem c2_counterexample :
    main_output emptyJar 1 ["a".toList] = some [(none : Option ERecord)] ∧
    ¬ (∀ out, main_output emptyJar 1 ["a".toList] = some out →
        ∀ x ∈ out, x.isSome = true) := by
  refine ⟨by decide, fun h => ?_⟩
  have := h [(none : Option ERecord)] (by decide) none (by simp)
  simp at this

/-- C2 amended: the pipeline appends exactly one entry per enchantment name,
in order; a name whose definition document cannot be loaded contributes the
empty record (modelled none, carrying no fields) at its position rather than
being dropped, and every full record that appears carries the name of the
name that produced it — so sibling names with loadable definitions still
produce complete records. -/
theorem c2_amended (jar : Jar) (fuel : Nat) :
    ∀ (names : List Str) (out : List (Option ERecord)),
      main_output jar fuel names = some out →
      out.length = names.length ∧
      (∀ i (hi : i < names.length) (ho : i < out.length),
        (jar.enchDefs (enchantmentDefPath (names.get ⟨i, hi⟩)) = none →
          out.get ⟨i, ho⟩ = none) ∧
        (∀ r, out.get ⟨i, ho⟩ = some r → r.name = names.get ⟨i, hi⟩)) := by
  intro names
  induction names with
  | nil =>
    intro out h
    rw [main_output] at h
    cases h
    exact ⟨rfl, fun i hi _ => absurd hi (by simp)⟩
  | cons n rest ih =>
    intro out h
    simp only [main_output] at h
    cases hx : extract_enchantment_data jar fuel n jar.lang with
    | none => simp only [hx] at h; exact Option.noConfusion h
    | some r =>
      simp only [hx] at h
      cases hrest : main_output jar fuel rest with
      | none => simp only [hrest] at h; exact Option.noConfusion h
      | some others =>
        simp only [hrest, Option.some.injEq] at h
        subst h
        obtain ⟨ihlen, ihidx⟩ := ih others hrest
        refine ⟨by simp [ihlen], ?_⟩
        intro i hi ho
        cases i with
        | zero =>
          refine ⟨fun hdef => ?_, fun rec hrec => ?_⟩
          · have := extract_of_missing_def jar fuel n jar.lang hdef
            rw [this] at hx
            injection hx with hx
            simp [← hx]
          · have hx2 : extract_enchantment_data jar fuel n jar.lang = some (some rec) := by
              rw [hx]
              simp only [List.get] at hrec
              rw [hrec]
            simpa using extract_name jar fuel n jar.lang rec hx2
        | succ j =>
          have hj : j < rest.length := Nat.lt_of_succ_lt_succ hi
          have hjo : j < others.length := Nat.lt_of_succ_lt_succ ho
          exact ihidx j hj hjo

/-- An archive in which only the definition document of the name b is
loadable (and empty), with no tag documents and no language table. -/
def jarOnlyB : Jar := Jar.mk (fun _ => none)
  (fun p => if p = enchantmentDefPath ("b".toList)
    then some (EnchDef.mk none none none none none none) else none)
  (fun _ => none)

/-- The record the pipeline builds for the name b from jarOnlyB. -/
def recB : ERecord := ERecord.mk ("b".toList) [] 1 0 0 0 [] [] false

/-- C2 amended witness: for the names a (unloadable) and b (loadable), the
pipeline emits the empty record then the full record of b, the output has
one entry per name, and the b record carries the name b. -/
theorem c2_amended_witness :
    main_output jarOnlyB 1 ["a".toList, "b".toList] = some [none, some recB] ∧
    ([none, some recB] : List (Option ERecord)).length =
      (["a".toList, "b".toList] : List Str).length ∧
    recB.name = "b".toList := by
  have hout : main_output jarOnlyB 1 ["a".toList, "b".toList] =
      some [none, some recB] := by decide
  have h := c2_amended jarOnlyB 1 ["a".toList, "b".toList] [none, some recB] hout
  refine ⟨hout, h.1, ?_⟩
  have := (h.2 1 (by decide) (by decide)).2 recB (by decide)
  simpa using this

/-- A cyclic tag graph: in both domains, tag a is the single reference #b
and tag b is the single reference #a. -/
def cyclicJar : Jar := Jar.mk
  (fun p =>
    if p = itemTagPath ("minecraft".toList) ("a".toList) then some [JVal.str ("#b".toList)]
    else if p = itemTagPath ("minecraft".toList) ("b".toList) then some [JVal.str ("#a".toList)]
    else if p = enchTagPath ("minecraft".toList) ("a".toList) then some [JVal.str ("#b".toList)]
    else if p = enchTagPath ("minecraft".toList) ("b".toList) then some [JVal.str ("#a".toList)]
    else none)
  (fun _ => none) (fun _ => none)

/-- On the cyclic pair of tags, no amount of fuel lets either resolver
finish: the fuel-indexed approximations of the source recursion are none at
every depth, for both #a and #b and in both domains. -/
theorem cyclic_resolve_none : ∀ fuel : Nat,
    resolve_item_tag cyclicJar fuel ('#' :: "a".toList) = none ∧
    resolve_item_tag cyclicJar fuel ('#' :: "b".toList) = none ∧
    resolve_enchantment_tag cyclicJar fuel ('#' :: "a".toList) = none ∧
    resolve_enchantment_tag cyclicJar fuel ('#' :: "b".toList) = none := by
  intro fuel
  induction fuel with
  | zero => exact ⟨by decide, by decide, by decide, by decide⟩
  | succ n ih =>
    obtain ⟨iha, ihb, iea, ieb⟩ := ih
    refine ⟨?_, ?_, ?_, ?_⟩
    · have e : resolve_item_tag cyclicJar (n + 1) ('#' :: "a".toList) =
          match resolve_item_tag cyclicJar n ('#' :: "b".toList) with
          | none => none
          | some head =>
            match (some [] : Option (List Str)) with
            | none => none
            | some tail => some (head ++ tail) := rfl
      rw [e, ihb]
    · have e : resolve_item_tag cyclicJar (n + 1) ('#' :: "b".toList) =
          match resolve_item_tag cyclicJar n ('#' :: "a".toList) with
          | none => none
          | some head =>
            match (some [] : Option (List Str)) with
            | none => none
            | some tail => some (head ++ tail) := rfl
      rw [e, iha]
    · have e : resolve_enchantment_tag cyclicJar (n + 1) ('#' :: "a".toList) =
          match resolve_enchantment_tag cyclicJar n ('#' :: "b".toList) with
          | none => none
          | some head =>
            match (some [] : Option (List Str)) with
            | none => none
            | some tail => some (head ++ tail) := rfl
      rw [e, ieb]
    · have e : resolve_enchantment_tag cyclicJar (n + 1) ('#' :: "b".toList) =
          match resolve_enchantment_tag cyclicJar n ('#' :: "a".toList) with
          | none => none
          | some head =>
            match (some [] : Option (List Str)) with
            | none => none
            | some tail => some (head ++ tail) := rfl
      rw [e, iea]

/-- C1: on the two-tag cycle (a references #b, b references #a) the source
recursion of resolve_item_tag and resolve_enchantment_tag never reaches a
result: the resolution of #a is none at every fuel, i.e. the unguarded
recursive walk of the source does not terminate, contradicting the claimed
cycle safety. -/
theorem c1_cycle_unbounded_recursion : ∀ fuel : Nat,
    resolve_item_tag cyclicJar fuel ('#' :: "a".toList) = none ∧
    resolve_enchantment_tag cyclicJar fuel ('#' :: "a".toList) = none :=
  fun fuel => ⟨(cyclic_resolve_none fuel).1, (cyclic_resolve_none fuel).2.2.1⟩

end MC
